import Mathlib

/-!
Shallow embedding of the PetroData leave-request approval workflow
(github.com/JpUnique/petrodata-leave-project).

The workflow core lives in the handlers package (SubmitLeaveRequest,
GetLeaveRequestByToken / ByHRToken / ByMDToken / GetFinalArchiveDetails,
HandleLineManagerAction, HandleHRManagerAction, HandleMDAction) operating
on the models.LeaveRequest record persisted through GORM.  We embed:

  - the LeaveRequest record as a Lean structure (string fields verbatim;
    the creation timestamp as a Nat);
  - the database as a list of records; GORM First(Where(col = tok)) is
    List.find? on the corresponding field, Create appends, Save updates
    the row with the same primary key (upsert);
  - uuid.New().String() as an explicit fresh-token parameter supplied to
    each operation (the generator returns an arbitrary string; its
    freshness/uniqueness is an assumption recorded as a hypothesis where
    a property depends on it);
  - HTTP responses as Except values carrying the status code and the
    error message constant on the failure paths.
-/

namespace Petrodata

/-- The models.LeaveRequest record.  Field set follows the struct used by
the complete handler variant: identity, immutable submission fields,
routing emails, status, the three per-stage decisions with their mirrored
booleans, and the four stage tokens. -/
structure LeaveRequest where
  id : Nat
  staffName : String
  staffNo : String
  designation : String
  department : String
  leaveType : String
  startDate : String
  resumptionDate : String
  totalDays : Int
  reliefStaff : String
  contactAddress : String
  managerEmail : String
  hrEmail : String
  mdEmail : String
  status : String
  managerDecision : String
  hrDecision : String
  mdDecision : String
  managerApproved : Bool
  hrApproved : Bool
  mdApproved : Bool
  requestToken : String
  hrToken : String
  mdToken : String
  finalHRToken : String
  createdAt : Nat
deriving Repr, DecidableEq

/-- Leave request status constants (handlers package). -/
def StatusPending : String := "Pending"

def StatusApproved : String := "Approved"

def StatusRejected : String := "Rejected"

def StatusPendingHRReview : String := "Pending HR Review"

def StatusPendingMDApproval : String := "Pending MD Final Approval"

def StatusRejectedByManager : String := "Rejected by Manager - Pending HR Filing"

def StatusRejectedByHR : String := "Rejected by HR - Pending MD Review"

def StatusRejectedByMD : String := "Rejected by MD"

def StatusFullyApproved : String := "Fully Approved"

/-- HTTP error message constants (handlers package). -/
def ErrMissingToken : String := "token is required"

def ErrTokenNotFound : String := "invalid or expired token"

def ErrRequestNotFound : String := "request not found"

/-- The leave-request store: the set of persisted rows. -/
abbrev Store := List LeaveRequest

/-- database.DB.Where("request_token = ?", tok).First -/
def findByRequestToken (db : Store) (tok : String) : Option LeaveRequest :=
  db.find? (fun r => r.requestToken == tok)

/-- database.DB.Where("hr_token = ?", tok).First -/
def findByHRToken (db : Store) (tok : String) : Option LeaveRequest :=
  db.find? (fun r => r.hrToken == tok)

/-- database.DB.Where("md_token = ?", tok).First -/
def findByMDToken (db : Store) (tok : String) : Option LeaveRequest :=
  db.find? (fun r => r.mdToken == tok)

/-- database.DB.Where("final_hr_token = ?", tok).First -/
def findByFinalHRToken (db : Store) (tok : String) : Option LeaveRequest :=
  db.find? (fun r => r.finalHRToken == tok)

/-- database.DB.Create: insert a new row. -/
def dbCreate (db : Store) (r : LeaveRequest) : Store :=
  db ++ [r]

/-- database.DB.Save: update the row with the same primary key, insert if
absent (GORM upsert semantics). -/
def dbSave (db : Store) (r : LeaveRequest) : Store :=
  if db.any (fun x => x.id == r.id) then
    db.map (fun x => if x.id == r.id then r else x)
  else
    db ++ [r]

/-- An HTTP failure: status code and error message. -/
abbrev HttpErr := Nat × String

/-- handlers.SubmitLeaveRequest: the decoded request body is a full
LeaveRequest value; the handler overrides the request token, the creation
time, the status, and the three approval booleans, then persists the row.
All other decoded fields are kept as given. -/
def submitLeaveRequest (db : Store) (body : LeaveRequest) (freshTok : String)
    (now : Nat) : Store × LeaveRequest :=
  let leaveReq : LeaveRequest :=
    { body with
      requestToken := freshTok
      createdAt := now
      status := StatusPending
      managerApproved := false
      hrApproved := false
      mdApproved := false }
  (dbCreate db leaveReq, leaveReq)

/-- handlers.GetLeaveRequestByToken: 400 on an empty token, 404 when no
row has the given request token, otherwise the full record (read-only). -/
def getLeaveRequestByToken (db : Store) (token : String) :
    Except HttpErr LeaveRequest :=
  if token == "" then .error (400, ErrMissingToken)
  else
    match findByRequestToken db token with
    | none => .error (404, ErrTokenNotFound)
    | some leaveReq => .ok leaveReq

/-- handlers.GetLeaveRequestByHRToken. -/
def getLeaveRequestByHRToken (db : Store) (token : String) :
    Except HttpErr LeaveRequest :=
  if token == "" then .error (400, ErrMissingToken)
  else
    match findByHRToken db token with
    | none => .error (404, ErrTokenNotFound)
    | some leaveReq => .ok leaveReq

/-- handlers.GetLeaveRequestByMDToken. -/
def getLeaveRequestByMDToken (db : Store) (token : String) :
    Except HttpErr LeaveRequest :=
  if token == "" then .error (400, ErrMissingToken)
  else
    match findByMDToken db token with
    | none => .error (404, ErrTokenNotFound)
    | some leaveReq => .ok leaveReq

/-- handlers.GetFinalArchiveDetails. -/
def getFinalArchiveDetails (db : Store) (token : String) :
    Except HttpErr LeaveRequest :=
  if token == "" then .error (400, ErrMissingToken)
  else
    match findByFinalHRToken db token with
    | none => .error (404, ErrTokenNotFound)
    | some leaveReq => .ok leaveReq

/-- The field updates HandleLineManagerAction applies to the fetched row:
manager decision stored verbatim, mirrored boolean derived by exact string
equality with "Approved", HR routing email set, status derived from the
boolean, fresh HR token issued. -/
def mgrUpdate (leaveReq : LeaveRequest) (status hrEmail freshTok : String) :
    LeaveRequest :=
  let approved := status == StatusApproved
  { leaveReq with
    managerDecision := status
    managerApproved := approved
    hrEmail := hrEmail
    status := if approved then StatusPendingHRReview else StatusRejectedByManager
    hrToken := freshTok }

/-- handlers.HandleLineManagerAction: resolve by request token (404 when
absent), apply the manager update, and save.  Returns the store after the
call together with the HTTP result. -/
def handleLineManagerAction (db : Store) (token status hrEmail freshTok : String) :
    Store × Except HttpErr LeaveRequest :=
  match findByRequestToken db token with
  | none => (db, .error (404, ErrRequestNotFound))
  | some leaveReq =>
    (dbSave db (mgrUpdate leaveReq status hrEmail freshTok),
      .ok (mgrUpdate leaveReq status hrEmail freshTok))

/-- The field updates HandleHRManagerAction applies to the fetched row:
HR decision stored verbatim with mirrored boolean, MD routing email set,
status derived, fresh MD token issued. -/
def hrUpdate (leaveReq : LeaveRequest) (status mdEmail freshTok : String) :
    LeaveRequest :=
  let approved := status == StatusApproved
  { leaveReq with
    hrDecision := status
    hrApproved := approved
    mdEmail := mdEmail
    status := if approved then StatusPendingMDApproval else StatusRejectedByHR
    mdToken := freshTok }

/-- handlers.HandleHRManagerAction: resolve by HR token (404 when absent),
apply the HR update, and save. -/
def handleHRManagerAction (db : Store) (token status mdEmail freshTok : String) :
    Store × Except HttpErr LeaveRequest :=
  match findByHRToken db token with
  | none => (db, .error (404, ErrRequestNotFound))
  | some leaveReq =>
    (dbSave db (hrUpdate leaveReq status mdEmail freshTok),
      .ok (hrUpdate leaveReq status mdEmail freshTok))

/-- The field updates HandleMDAction applies to the fetched row: MD
decision stored verbatim with mirrored boolean, final status derived,
final HR-archive token issued. -/
def mdUpdate (leaveReq : LeaveRequest) (status freshTok : String) :
    LeaveRequest :=
  let approved := status == StatusApproved
  { leaveReq with
    mdDecision := status
    mdApproved := approved
    status := if approved then StatusFullyApproved else StatusRejectedByMD
    finalHRToken := freshTok }

/-- handlers.HandleMDAction: resolve by MD token (404 when absent), apply
the MD update, and save. -/
def handleMDAction (db : Store) (token status freshTok : String) :
    Store × Except HttpErr LeaveRequest :=
  match findByMDToken db token with
  | none => (db, .error (404, ErrRequestNotFound))
  | some leaveReq =>
    (dbSave db (mdUpdate leaveReq status freshTok),
      .ok (mdUpdate leaveReq status freshTok))

/-- An all-empty record, used to build concrete test inputs. -/
def emptyReq : LeaveRequest :=
  { id := 0
    staffName := ""
    staffNo := ""
    designation := ""
    department := ""
    leaveType := ""
    startDate := ""
    resumptionDate := ""
    totalDays := 0
    reliefStaff := ""
    contactAddress := ""
    managerEmail := ""
    hrEmail := ""
    mdEmail := ""
    status := ""
    managerDecision := ""
    hrDecision := ""
    mdDecision := ""
    managerApproved := false
    hrApproved := false
    mdApproved := false
    requestToken := ""
    hrToken := ""
    mdToken := ""
    finalHRToken := ""
    createdAt := 0 }

/-- A freshly submitted request awaiting the manager decision. -/
def reqStage1 : LeaveRequest :=
  { emptyReq with
    id := 1
    staffName := "Ada"
    managerEmail := "m@x.com"
    status := StatusPending
    requestToken := "t1" }

/-- A request already forwarded to HR (stage-2 token issued). -/
def reqStage2 : LeaveRequest :=
  { emptyReq with
    id := 2
    staffName := "Ada"
    managerEmail := "m@x.com"
    hrEmail := "h@x.com"
    status := StatusPendingHRReview
    managerDecision := "Approved"
    managerApproved := true
    requestToken := "t1"
    hrToken := "t2" }

/-- A request already forwarded to the MD (stage-3 token issued). -/
def reqStage3 : LeaveRequest :=
  { emptyReq with
    id := 3
    staffName := "Ada"
    managerEmail := "m@x.com"
    hrEmail := "h@x.com"
    mdEmail := "d@x.com"
    status := StatusPendingMDApproval
    managerDecision := "Approved"
    hrDecision := "Approved"
    managerApproved := true
    hrApproved := true
    requestToken := "t1"
    hrToken := "t2"
    mdToken := "t3" }

/-- A row whose three lookup tokens coincide, used to exercise all three
decision handlers at one concrete token. -/
def reqAllTok : LeaveRequest :=
  { emptyReq with
    id := 7
    requestToken := "tk"
    hrToken := "tk"
    mdToken := "tk" }

/-- A submission body whose manager_decision field already reads
"Approved" (exercises the mass-assignment path of Submit). -/
def badBody : LeaveRequest :=
  { emptyReq with managerDecision := "Approved" }

/-- The mirrored approval booleans of a row agree with their decision
fields (each flag is true exactly when the decision is "Approved"). -/
def agreeFlags (r : LeaveRequest) : Bool :=
  (r.managerApproved == (r.managerDecision == StatusApproved))
    && (r.hrApproved == (r.hrDecision == StatusApproved))
    && (r.mdApproved == (r.mdDecision == StatusApproved))

/-- Every stored row has agreeing flags. -/
def storeAgrees (db : Store) : Bool :=
  db.all agreeFlags

/-- Stores reachable from the empty store through the public operations,
with arbitrary request bodies and token/time parameters (the fetch
operations are read-only and do not change the store). -/
inductive Reach : Store → Prop where
  | empty : Reach []
  | submit (db : Store) (body : LeaveRequest) (f : String) (n : Nat) :
      Reach db → Reach (submitLeaveRequest db body f n).1
  | mgrAct (db : Store) (tok s e f : String) :
      Reach db → Reach (handleLineManagerAction db tok s e f).1
  | hrAct (db : Store) (tok s e f : String) :
      Reach db → Reach (handleHRManagerAction db tok s e f).1
  | mdAct (db : Store) (tok s f : String) :
      Reach db → Reach (handleMDAction db tok s f).1

/-- Reachability restricted to submissions whose decision fields do not
read exactly "Approved" (in particular, ordinary submissions leaving the
decision fields unset). -/
inductive ReachOK : Store → Prop where
  | empty : ReachOK []
  | submit (db : Store) (body : LeaveRequest) (f : String) (n : Nat) :
      ReachOK db →
      body.managerDecision ≠ StatusApproved →
      body.hrDecision ≠ StatusApproved →
      body.mdDecision ≠ StatusApproved →
      ReachOK (submitLeaveRequest db body f n).1
  | mgrAct (db : Store) (tok s e f : String) :
      ReachOK db → ReachOK (handleLineManagerAction db tok s e f).1
  | hrAct (db : Store) (tok s e f : String) :
      ReachOK db → ReachOK (handleHRManagerAction db tok s e f).1
  | mdAct (db : Store) (tok s f : String) :
      ReachOK db → ReachOK (handleMDAction db tok s f).1

end Petrodata

namespace Petrodata

/-- A row resolved by its request token is a member of the store. -/
theorem mem_of_findByRequestToken {db : Store} {tok : String} {r : LeaveRequest}
    (h : findByRequestToken db tok = some r) : r ∈ db := by
  unfold findByRequestToken at h
  exact List.mem_of_find?_eq_some h

/-- A row resolved by its request token carries that token. -/
theorem findByRequestToken_token {db : Store} {tok : String} {r : LeaveRequest}
    (h : findByRequestToken db tok = some r) : r.requestToken = tok := by
  unfold findByRequestToken at h
  have hp := List.find?_some h
  simpa using hp

/-- A row resolved by its HR token is a member of the store. -/
theorem mem_of_findByHRToken {db : Store} {tok : String} {r : LeaveRequest}
    (h : findByHRToken db tok = some r) : r ∈ db := by
  unfold findByHRToken at h
  exact List.mem_of_find?_eq_some h

/-- A row resolved by its HR token carries that token. -/
theorem findByHRToken_token {db : Store} {tok : String} {r : LeaveRequest}
    (h : findByHRToken db tok = some r) : r.hrToken = tok := by
  unfold findByHRToken at h
  have hp := List.find?_some h
  simpa using hp

/-- A row resolved by its MD token is a member of the store. -/
theorem mem_of_findByMDToken {db : Store} {tok : String} {r : LeaveRequest}
    (h : findByMDToken db tok = some r) : r ∈ db := by
  unfold findByMDToken at h
  exact List.mem_of_find?_eq_some h

/-- A row resolved by its MD token carries that token. -/
theorem findByMDToken_token {db : Store} {tok : String} {r : LeaveRequest}
    (h : findByMDToken db tok = some r) : r.mdToken = tok := by
  unfold findByMDToken at h
  have hp := List.find?_some h
  simpa using hp

/-- Saving a row whose primary key already occurs in the store leaves the
saved row a member of the resulting store. -/
theorem mem_dbSave_self {db : Store} {r u : LeaveRequest}
    (hmem : r ∈ db) (hid : u.id = r.id) : u ∈ dbSave db u := by
  unfold dbSave
  have hany : db.any (fun x => x.id == u.id) = true :=
    List.any_eq_true.mpr ⟨r, hmem, by simp [hid]⟩
  rw [if_pos hany]
  have hm := List.mem_map_of_mem (fun x => if x.id == u.id then u else x) hmem
  simpa [hid] using hm

/-- Every member of a store after a save is an old row or the saved row. -/
theorem mem_of_mem_dbSave {db : Store} {u x : LeaveRequest}
    (h : x ∈ dbSave db u) : x ∈ db ∨ x = u := by
  unfold dbSave at h
  by_cases hany : db.any (fun y => y.id == u.id) = true
  · rw [if_pos hany] at h
    obtain ⟨y, hy, hxy⟩ := List.mem_map.mp h
    by_cases hid : (y.id == u.id) = true
    · right
      rw [← hxy]
      simp [hid]
    · left
      have hyx : y = x := by
        rw [← hxy]
        simp [hid]
      exact hyx ▸ hy
  · rw [if_neg hany] at h
    rcases List.mem_append.mp h with h1 | h2
    · exact Or.inl h1
    · exact Or.inr (by simpa using h2)

/-- After saving an updated row whose lookup key is globally fresh (no row
of the store matched the key before the save), the key resolves to exactly
the updated row. -/
theorem find_dbSave_fresh {db : Store} {p : LeaveRequest → Bool}
    {r u : LeaveRequest} (hmem : r ∈ db) (hid : u.id = r.id)
    (hall : ∀ x ∈ db, p x = false) (hu : p u = true) :
    (dbSave db u).find? p = some u := by
  unfold dbSave
  have hany : db.any (fun x => x.id == u.id) = true :=
    List.any_eq_true.mpr ⟨r, hmem, by simp [hid]⟩
  rw [if_pos hany]
  induction db with
  | nil => cases hmem
  | cons a l ih =>
    rw [List.map_cons]
    by_cases hida : (a.id == u.id) = true
    · rw [if_pos hida]
      exact List.find?_cons_of_pos _ hu
    · rw [if_neg hida]
      have hpa : p a = false := hall a (List.mem_cons_self a l)
      rw [List.find?_cons_of_neg _ (by simp [hpa])]
      rcases List.mem_cons.mp hmem with hra | hrl
      · exact absurd (by rw [hra] at hid; simp [hid]) hida
      · exact ih hrl (fun x hx => hall x (List.mem_cons_of_mem a hx))
          (List.any_eq_true.mpr ⟨r, hrl, by simp [hid]⟩)

/-- Claim C10: SubmitLeaveRequest persists the client-supplied values of the
workflow-internal fields (manager decision, HR decision, HR token, MD token,
HR email, MD email) verbatim, overriding only the request token, status,
creation timestamp, and the three approval booleans; the row is appended to
the store. -/
theorem submit_mass_assignment (db : Store) (body : LeaveRequest)
    (freshTok : String) (now : Nat) :
    (submitLeaveRequest db body freshTok now).1
        = db ++ [(submitLeaveRequest db body freshTok now).2]
      ∧ (submitLeaveRequest db body freshTok now).2.managerDecision = body.managerDecision
      ∧ (submitLeaveRequest db body freshTok now).2.hrDecision = body.hrDecision
      ∧ (submitLeaveRequest db body freshTok now).2.hrToken = body.hrToken
      ∧ (submitLeaveRequest db body freshTok now).2.mdToken = body.mdToken
      ∧ (submitLeaveRequest db body freshTok now).2.hrEmail = body.hrEmail
      ∧ (submitLeaveRequest db body freshTok now).2.mdEmail = body.mdEmail
      ∧ (submitLeaveRequest db body freshTok now).2.requestToken = freshTok
      ∧ (submitLeaveRequest db body freshTok now).2.status = StatusPending
      ∧ (submitLeaveRequest db body freshTok now).2.createdAt = now
      ∧ (submitLeaveRequest db body freshTok now).2.managerApproved = false
      ∧ (submitLeaveRequest db body freshTok now).2.hrApproved = false
      ∧ (submitLeaveRequest db body freshTok now).2.mdApproved = false
      ∧ (submitLeaveRequest db body freshTok now).2.staffName = body.staffName
      ∧ (submitLeaveRequest db body freshTok now).2.managerEmail = body.managerEmail
      ∧ (submitLeaveRequest db body freshTok now).2.mdDecision = body.mdDecision
      ∧ (submitLeaveRequest db body freshTok now).2.finalHRToken = body.finalHRToken := by
  exact ⟨rfl, rfl, rfl, rfl, rfl, rfl, rfl, rfl, rfl, rfl, rfl, rfl, rfl, rfl,
    rfl, rfl, rfl⟩

/-- Claim C1: for every stored leave request resolvable by its stage-1
(request) token, HandleLineManagerAction with decision Approved sets the
status to "Pending HR Review" and issues a new HR token distinct from the
stage-1 token; with decision Rejected it sets the status to
"Rejected by Manager - Pending HR Filing" and still issues a new HR token
(the chain continues in both cases). -/
theorem manager_action_status_token (db : Store) (tok hrE freshTok : String)
    (r : LeaveRequest) (hfind : findByRequestToken db tok = some r)
    (hfresh : freshTok ≠ tok) :
    (∃ u : LeaveRequest,
        handleLineManagerAction db tok StatusApproved hrE freshTok
            = (dbSave db u, Except.ok u)
          ∧ u.status = StatusPendingHRReview
          ∧ u.hrToken = freshTok
          ∧ u.hrToken ≠ u.requestToken)
      ∧ (∃ u : LeaveRequest,
        handleLineManagerAction db tok StatusRejected hrE freshTok
            = (dbSave db u, Except.ok u)
          ∧ u.status = StatusRejectedByManager
          ∧ u.hrToken = freshTok
          ∧ u.hrToken ≠ u.requestToken) := by
  have htok : r.requestToken = tok := findByRequestToken_token hfind
  refine ⟨⟨mgrUpdate r StatusApproved hrE freshTok, ?_, ?_, rfl, ?_⟩,
    ⟨mgrUpdate r StatusRejected hrE freshTok, ?_, ?_, rfl, ?_⟩⟩
  · unfold handleLineManagerAction
    rw [hfind]
  · simp [mgrUpdate]
  · simpa [mgrUpdate, htok] using hfresh
  · unfold handleLineManagerAction
    rw [hfind]
  · simp [mgrUpdate, StatusRejected, StatusApproved, StatusRejectedByManager]
  · simpa [mgrUpdate, htok] using hfresh

/-- Concrete instance of the C1 theorem at a one-row store. -/
theorem manager_action_status_token_witness :
    (∃ u : LeaveRequest,
        handleLineManagerAction [reqStage1] "t1" StatusApproved "h@x.com" "hr-1"
            = (dbSave [reqStage1] u, Except.ok u)
          ∧ u.status = StatusPendingHRReview
          ∧ u.hrToken = "hr-1"
          ∧ u.hrToken ≠ u.requestToken)
      ∧ (∃ u : LeaveRequest,
        handleLineManagerAction [reqStage1] "t1" StatusRejected "h@x.com" "hr-1"
            = (dbSave [reqStage1] u, Except.ok u)
          ∧ u.status = StatusRejectedByManager
          ∧ u.hrToken = "hr-1"
          ∧ u.hrToken ≠ u.requestToken) :=
  manager_action_status_token [reqStage1] "t1" "h@x.com" "hr-1" reqStage1
    (by decide) (by decide)

/-- Claim C2: for every stored leave request resolvable by its MD token,
HandleMDAction with decision Approved sets status to "Fully Approved" and
with decision Rejected sets status to "Rejected by MD"; in both cases a
non-empty final-archive token is generated and persisted in the store. -/
theorem md_action_final_status_token (db : Store) (tok freshTok : String)
    (r : LeaveRequest) (hfind : findByMDToken db tok = some r)
    (hfresh : freshTok ≠ "") :
    (∃ u : LeaveRequest,
        handleMDAction db tok StatusApproved freshTok = (dbSave db u, Except.ok u)
          ∧ u.status = StatusFullyApproved
          ∧ u.finalHRToken = freshTok
          ∧ u.finalHRToken ≠ ""
          ∧ u ∈ (handleMDAction db tok StatusApproved freshTok).1)
      ∧ (∃ u : LeaveRequest,
        handleMDAction db tok StatusRejected freshTok = (dbSave db u, Except.ok u)
          ∧ u.status = StatusRejectedByMD
          ∧ u.finalHRToken = freshTok
          ∧ u.finalHRToken ≠ ""
          ∧ u ∈ (handleMDAction db tok StatusRejected freshTok).1) := by
  have hmem : r ∈ db := mem_of_findByMDToken hfind
  have heqA : handleMDAction db tok StatusApproved freshTok
      = (dbSave db (mdUpdate r StatusApproved freshTok),
          Except.ok (mdUpdate r StatusApproved freshTok)) := by
    unfold handleMDAction
    rw [hfind]
  have heqR : handleMDAction db tok StatusRejected freshTok
      = (dbSave db (mdUpdate r StatusRejected freshTok),
          Except.ok (mdUpdate r StatusRejected freshTok)) := by
    unfold handleMDAction
    rw [hfind]
  refine ⟨⟨mdUpdate r StatusApproved freshTok, heqA, ?_, rfl, hfresh, ?_⟩,
    ⟨mdUpdate r StatusRejected freshTok, heqR, ?_, rfl, hfresh, ?_⟩⟩
  · simp [mdUpdate]
  · rw [heqA]
    exact mem_dbSave_self hmem rfl
  · simp [mdUpdate, StatusRejected, StatusApproved, StatusRejectedByMD]
  · rw [heqR]
    exact mem_dbSave_self hmem rfl

/-- Concrete instance of the C2 theorem at a one-row store. -/
theorem md_action_final_status_token_witness :
    (∃ u : LeaveRequest,
        handleMDAction [reqStage3] "t3" StatusApproved "t4" = (dbSave [reqStage3] u, Except.ok u)
          ∧ u.status = StatusFullyApproved
          ∧ u.finalHRToken = "t4"
          ∧ u.finalHRToken ≠ ""
          ∧ u ∈ (handleMDAction [reqStage3] "t3" StatusApproved "t4").1)
      ∧ (∃ u : LeaveRequest,
        handleMDAction [reqStage3] "t3" StatusRejected "t4" = (dbSave [reqStage3] u, Except.ok u)
          ∧ u.status = StatusRejectedByMD
          ∧ u.finalHRToken = "t4"
          ∧ u.finalHRToken ≠ ""
          ∧ u ∈ (handleMDAction [reqStage3] "t3" StatusRejected "t4").1) :=
  md_action_final_status_token [reqStage3] "t3" "t4" reqStage3 (by decide) (by decide)

/-- Claim C7: every decision handler stores the decision string verbatim in
the corresponding decision field, and the mirrored approved boolean is true
exactly when the decision is the exact string "Approved" (case-sensitive
string equality; any other string yields approved = false). -/
theorem decision_stored_verbatim (db : Store) (tok e f d : String) :
    (∀ r, findByRequestToken db tok = some r →
        ∃ u, handleLineManagerAction db tok d e f = (dbSave db u, Except.ok u)
          ∧ u.managerDecision = d ∧ (u.managerApproved = true ↔ d = StatusApproved))
      ∧ (∀ r, findByHRToken db tok = some r →
        ∃ u, handleHRManagerAction db tok d e f = (dbSave db u, Except.ok u)
          ∧ u.hrDecision = d ∧ (u.hrApproved = true ↔ d = StatusApproved))
      ∧ (∀ r, findByMDToken db tok = some r →
        ∃ u, handleMDAction db tok d f = (dbSave db u, Except.ok u)
          ∧ u.mdDecision = d ∧ (u.mdApproved = true ↔ d = StatusApproved)) := by
  refine ⟨fun r hfind => ⟨mgrUpdate r d e f, ?_, rfl, ?_⟩,
    fun r hfind => ⟨hrUpdate r d e f, ?_, rfl, ?_⟩,
    fun r hfind => ⟨mdUpdate r d f, ?_, rfl, ?_⟩⟩
  · unfold handleLineManagerAction
    rw [hfind]
  · simp [mgrUpdate]
  · unfold handleHRManagerAction
    rw [hfind]
  · simp [hrUpdate]
  · unfold handleMDAction
    rw [hfind]
  · simp [mdUpdate]

/-- Concrete instance of the C7 theorem, including a decision value outside
the Approved/Rejected enumeration. -/
theorem decision_stored_verbatim_witness :
    (∃ u, handleLineManagerAction [reqAllTok] "tk" "Maybe" "e@x.com" "f1"
        = (dbSave [reqAllTok] u, Except.ok u)
      ∧ u.managerDecision = "Maybe"
      ∧ (u.managerApproved = true ↔ ("Maybe" : String) = StatusApproved))
    ∧ (∃ u, handleHRManagerAction [reqAllTok] "tk" "Maybe" "e@x.com" "f1"
        = (dbSave [reqAllTok] u, Except.ok u)
      ∧ u.hrDecision = "Maybe"
      ∧ (u.hrApproved = true ↔ ("Maybe" : String) = StatusApproved))
    ∧ (∃ u, handleMDAction [reqAllTok] "tk" "Maybe" "f1"
        = (dbSave [reqAllTok] u, Except.ok u)
      ∧ u.mdDecision = "Maybe"
      ∧ (u.mdApproved = true ↔ ("Maybe" : String) = StatusApproved)) :=
  ⟨(decision_stored_verbatim [reqAllTok] "tk" "e@x.com" "f1" "Maybe").1 reqAllTok rfl,
    (decision_stored_verbatim [reqAllTok] "tk" "e@x.com" "f1" "Maybe").2.1 reqAllTok rfl,
    (decision_stored_verbatim [reqAllTok] "tk" "e@x.com" "f1" "Maybe").2.2 reqAllTok rfl⟩

/-- Claim C8 counterexample: a submission whose staff name and manager email
are both empty is persisted all the same — SubmitLeaveRequest has no
validation-error path at all (its result always carries the created row),
so the claimed ValidationError rejection does not happen. -/
theorem submit_no_validation_cex :
    emptyReq.staffName = "" ∧ emptyReq.managerEmail = ""
      ∧ (submitLeaveRequest [] emptyReq "t1" 0).1.length = 1
      ∧ (submitLeaveRequest [] emptyReq "t1" 0).2.status = StatusPending :=
  ⟨rfl, rfl, rfl, rfl⟩

/-- Claim C8 (amended): SubmitLeaveRequest performs no non-empty validation
of the manager email or staff name: a submission with both fields empty is
persisted (the row is appended to the store) and receives status Pending,
with no error reported to the caller. -/
theorem submit_accepts_empty_fields (db : Store) (body : LeaveRequest)
    (freshTok : String) (now : Nat)
    (h1 : body.staffName = "") (h2 : body.managerEmail = "") :
    (submitLeaveRequest db body freshTok now).1
        = db ++ [(submitLeaveRequest db body freshTok now).2]
      ∧ (submitLeaveRequest db body freshTok now).2.status = StatusPending :=
  ⟨rfl, rfl⟩

/-- Concrete instance of the amended C8 theorem. -/
theorem submit_accepts_empty_fields_witness :
    (submitLeaveRequest [] emptyReq "t1" 0).1
        = [] ++ [(submitLeaveRequest [] emptyReq "t1" 0).2]
      ∧ (submitLeaveRequest [] emptyReq "t1" 0).2.status = StatusPending :=
  submit_accepts_empty_fields [] emptyReq "t1" 0 rfl rfl

/-- Claim C5: for every submission whose body carries no decision values
(the inputs of a valid submission are the immutable fields and the manager
email only, so the decoded decision fields are empty), the stage-1 token
returned by Submit resolves via GetLeaveRequestByToken to a record with
status Pending and all three decision fields unset.  The fresh token is
assumed non-empty and not already present in the store (UUID freshness). -/
theorem submit_fetch_roundtrip (db : Store) (body : LeaveRequest)
    (freshTok : String) (now : Nat)
    (hmd : body.managerDecision = "") (hhd : body.hrDecision = "")
    (hmdd : body.mdDecision = "")
    (hne : freshTok ≠ "")
    (hfree : ∀ x ∈ db, x.requestToken ≠ freshTok) :
    getLeaveRequestByToken (submitLeaveRequest db body freshTok now).1 freshTok
        = Except.ok (submitLeaveRequest db body freshTok now).2
      ∧ (submitLeaveRequest db body freshTok now).2.status = StatusPending
      ∧ (submitLeaveRequest db body freshTok now).2.managerDecision = ""
      ∧ (submitLeaveRequest db body freshTok now).2.hrDecision = ""
      ∧ (submitLeaveRequest db body freshTok now).2.mdDecision = "" := by
  have hnone : db.find? (fun r => r.requestToken == freshTok) = none :=
    List.find?_eq_none.mpr (fun x hx => by simp [hfree x hx])
  have hbeq : (freshTok == "") = false := beq_eq_false_iff_ne.mpr hne
  have hfind : findByRequestToken (submitLeaveRequest db body freshTok now).1 freshTok
      = some (submitLeaveRequest db body freshTok now).2 := by
    unfold findByRequestToken submitLeaveRequest dbCreate
    rw [List.find?_append, hnone]
    simp [List.find?]
  refine ⟨?_, rfl, hmd, hhd, hmdd⟩
  unfold getLeaveRequestByToken
  rw [hfind, hbeq]
  rfl

/-- Concrete instance of the C5 theorem at a one-row store. -/
theorem submit_fetch_roundtrip_witness :
    getLeaveRequestByToken (submitLeaveRequest [reqStage1] emptyReq "t9" 5).1 "t9"
        = Except.ok (submitLeaveRequest [reqStage1] emptyReq "t9" 5).2
      ∧ (submitLeaveRequest [reqStage1] emptyReq "t9" 5).2.status = StatusPending
      ∧ (submitLeaveRequest [reqStage1] emptyReq "t9" 5).2.managerDecision = ""
      ∧ (submitLeaveRequest [reqStage1] emptyReq "t9" 5).2.hrDecision = ""
      ∧ (submitLeaveRequest [reqStage1] emptyReq "t9" 5).2.mdDecision = "" :=
  submit_fetch_roundtrip [reqStage1] emptyReq "t9" 5 rfl rfl rfl (by decide)
    (by decide)

/-- Claim C6: every fetch or decision-recording operation invoked with a
token matching no stored record returns a 404 error, and the store is
unchanged on that path (the decision handlers return the store they were
given; the fetch handlers are read-only by type). -/
theorem unknown_token_404_no_mutation (db : Store) (tok s e f : String)
    (hne : tok ≠ "") :
    (findByRequestToken db tok = none →
        handleLineManagerAction db tok s e f
          = (db, Except.error (404, ErrRequestNotFound)))
      ∧ (findByHRToken db tok = none →
        handleHRManagerAction db tok s e f
          = (db, Except.error (404, ErrRequestNotFound)))
      ∧ (findByMDToken db tok = none →
        handleMDAction db tok s f = (db, Except.error (404, ErrRequestNotFound)))
      ∧ (findByRequestToken db tok = none →
        getLeaveRequestByToken db tok = Except.error (404, ErrTokenNotFound))
      ∧ (findByHRToken db tok = none →
        getLeaveRequestByHRToken db tok = Except.error (404, ErrTokenNotFound))
      ∧ (findByMDToken db tok = none →
        getLeaveRequestByMDToken db tok = Except.error (404, ErrTokenNotFound))
      ∧ (findByFinalHRToken db tok = none →
        getFinalArchiveDetails db tok = Except.error (404, ErrTokenNotFound)) := by
  have hbeq : (tok == "") = false := beq_eq_false_iff_ne.mpr hne
  refine ⟨fun h => ?_, fun h => ?_, fun h => ?_, fun h => ?_, fun h => ?_,
    fun h => ?_, fun h => ?_⟩
  · unfold handleLineManagerAction
    rw [h]
  · unfold handleHRManagerAction
    rw [h]
  · unfold handleMDAction
    rw [h]
  · unfold getLeaveRequestByToken
    rw [h, hbeq]
    rfl
  · unfold getLeaveRequestByHRToken
    rw [h, hbeq]
    rfl
  · unfold getLeaveRequestByMDToken
    rw [h, hbeq]
    rfl
  · unfold getFinalArchiveDetails
    rw [h, hbeq]
    rfl

/-- Concrete instance of the C6 theorem at the empty store. -/
theorem unknown_token_404_no_mutation_witness :
    handleLineManagerAction [] "zzz" "Approved" "h@x.com" "f1"
        = ([], Except.error (404, ErrRequestNotFound))
      ∧ handleHRManagerAction [] "zzz" "Approved" "h@x.com" "f1"
        = ([], Except.error (404, ErrRequestNotFound))
      ∧ handleMDAction [] "zzz" "Approved" "f1"
        = ([], Except.error (404, ErrRequestNotFound))
      ∧ getLeaveRequestByToken [] "zzz" = Except.error (404, ErrTokenNotFound)
      ∧ getLeaveRequestByHRToken [] "zzz" = Except.error (404, ErrTokenNotFound)
      ∧ getLeaveRequestByMDToken [] "zzz" = Except.error (404, ErrTokenNotFound)
      ∧ getFinalArchiveDetails [] "zzz" = Except.error (404, ErrTokenNotFound) :=
  ⟨(unknown_token_404_no_mutation [] "zzz" "Approved" "h@x.com" "f1" (by decide)).1 rfl,
    (unknown_token_404_no_mutation [] "zzz" "Approved" "h@x.com" "f1" (by decide)).2.1 rfl,
    (unknown_token_404_no_mutation [] "zzz" "Approved" "h@x.com" "f1" (by decide)).2.2.1 rfl,
    (unknown_token_404_no_mutation [] "zzz" "Approved" "h@x.com" "f1" (by decide)).2.2.2.1 rfl,
    (unknown_token_404_no_mutation [] "zzz" "Approved" "h@x.com" "f1" (by decide)).2.2.2.2.1 rfl,
    (unknown_token_404_no_mutation [] "zzz" "Approved" "h@x.com" "f1" (by decide)).2.2.2.2.2.1 rfl,
    (unknown_token_404_no_mutation [] "zzz" "Approved" "h@x.com" "f1" (by decide)).2.2.2.2.2.2 rfl⟩

/-- Claim C3: an HR rejection does not halt the workflow.  For every
request resolvable by its HR token, HandleHRManagerAction with decision
Rejected sets status to "Rejected by HR - Pending MD Review" and still
generates an MD token, and a subsequent HandleMDAction on that MD token
with decision Approved yields status "Fully Approved" despite the earlier
HR rejection.  The fresh MD token is assumed absent from the store (UUID
freshness). -/
theorem hr_rejection_chain_continues (db : Store) (tok mdE freshMD freshFin : String)
    (r : LeaveRequest) (hfind : findByHRToken db tok = some r)
    (hfresh : ∀ x ∈ db, x.mdToken ≠ freshMD) :
    ∃ db1 u1,
      handleHRManagerAction db tok StatusRejected mdE freshMD = (db1, Except.ok u1)
        ∧ u1.status = StatusRejectedByHR
        ∧ u1.mdToken = freshMD
        ∧ ∃ db2 u2,
          handleMDAction db1 freshMD StatusApproved freshFin = (db2, Except.ok u2)
            ∧ u2.status = StatusFullyApproved
            ∧ u2.hrDecision = StatusRejected := by
  have hmem : r ∈ db := mem_of_findByHRToken hfind
  refine ⟨dbSave db (hrUpdate r StatusRejected mdE freshMD),
    hrUpdate r StatusRejected mdE freshMD, ?_, ?_, rfl, ?_⟩
  · unfold handleHRManagerAction
    rw [hfind]
  · simp [hrUpdate, StatusRejected, StatusApproved, StatusRejectedByHR]
  · have hfind2 : findByMDToken (dbSave db (hrUpdate r StatusRejected mdE freshMD))
        freshMD = some (hrUpdate r StatusRejected mdE freshMD) := by
      unfold findByMDToken
      exact find_dbSave_fresh hmem rfl
        (fun x hx => by simp [hfresh x hx]) (by simp [hrUpdate])
    refine ⟨dbSave (dbSave db (hrUpdate r StatusRejected mdE freshMD))
        (mdUpdate (hrUpdate r StatusRejected mdE freshMD) StatusApproved freshFin),
      mdUpdate (hrUpdate r StatusRejected mdE freshMD) StatusApproved freshFin,
      ?_, ?_, ?_⟩
    · unfold handleMDAction
      rw [hfind2]
    · simp [mdUpdate]
    · simp [mdUpdate, hrUpdate]

/-- Concrete instance of the C3 theorem at a one-row store. -/
theorem hr_rejection_chain_continues_witness :
    ∃ db1 u1,
      handleHRManagerAction [reqStage2] "t2" StatusRejected "d@x.com" "t3"
          = (db1, Except.ok u1)
        ∧ u1.status = StatusRejectedByHR
        ∧ u1.mdToken = "t3"
        ∧ ∃ db2 u2,
          handleMDAction db1 "t3" StatusApproved "t4" = (db2, Except.ok u2)
            ∧ u2.status = StatusFullyApproved
            ∧ u2.hrDecision = StatusRejected :=
  hr_rejection_chain_continues [reqStage2] "t2" "d@x.com" "t3" "t4" reqStage2
    (by decide) (by decide)

/-- Claim C4 counterexample: an issued stage token is not immutable.  After
one manager action the stored row's HR token is "hr-1"; a repeated manager
action bearing the same stage-1 token overwrites it with "hr-2". -/
theorem token_reissued_on_repeat_cex :
    ((handleLineManagerAction [reqStage1] "t1" StatusApproved "h@x.com" "hr-1").1.all
        (fun x => x.hrToken == "hr-1")) = true
      ∧ ((handleLineManagerAction
            (handleLineManagerAction [reqStage1] "t1" StatusApproved "h@x.com" "hr-1").1
            "t1" StatusApproved "h@x.com" "hr-2").1.all
          (fun x => x.hrToken == "hr-2")) = true
      ∧ ("hr-1" : String) ≠ "hr-2" := by
  decide

/-- Claim C4 (amended): each decision handler leaves the token it resolves
by and the other stages' earlier tokens unchanged, but unconditionally
overwrites the next-stage token with the fresh value on every invocation —
including a repeated call bearing the same stage token, which therefore
re-issues that next-stage token. -/
theorem token_update_discipline (db : Store) (tok s e f : String) :
    (∀ r, findByRequestToken db tok = some r →
        ∃ u, handleLineManagerAction db tok s e f = (dbSave db u, Except.ok u)
          ∧ u.requestToken = r.requestToken
          ∧ u.mdToken = r.mdToken
          ∧ u.finalHRToken = r.finalHRToken
          ∧ u.hrToken = f)
      ∧ (∀ r, findByHRToken db tok = some r →
        ∃ u, handleHRManagerAction db tok s e f = (dbSave db u, Except.ok u)
          ∧ u.requestToken = r.requestToken
          ∧ u.hrToken = r.hrToken
          ∧ u.finalHRToken = r.finalHRToken
          ∧ u.mdToken = f)
      ∧ (∀ r, findByMDToken db tok = some r →
        ∃ u, handleMDAction db tok s f = (dbSave db u, Except.ok u)
          ∧ u.requestToken = r.requestToken
          ∧ u.hrToken = r.hrToken
          ∧ u.mdToken = r.mdToken
          ∧ u.finalHRToken = f) := by
  refine ⟨fun r hfind => ⟨mgrUpdate r s e f, ?_, rfl, rfl, rfl, rfl⟩,
    fun r hfind => ⟨hrUpdate r s e f, ?_, rfl, rfl, rfl, rfl⟩,
    fun r hfind => ⟨mdUpdate r s f, ?_, rfl, rfl, rfl, rfl⟩⟩
  · unfold handleLineManagerAction
    rw [hfind]
  · unfold handleHRManagerAction
    rw [hfind]
  · unfold handleMDAction
    rw [hfind]

/-- Concrete instance of the amended C4 theorem. -/
theorem token_update_discipline_witness :
    (∃ u, handleLineManagerAction [reqAllTok] "tk" "Approved" "e@x.com" "f9"
        = (dbSave [reqAllTok] u, Except.ok u)
      ∧ u.requestToken = reqAllTok.requestToken
      ∧ u.mdToken = reqAllTok.mdToken
      ∧ u.finalHRToken = reqAllTok.finalHRToken
      ∧ u.hrToken = "f9")
    ∧ (∃ u, handleHRManagerAction [reqAllTok] "tk" "Approved" "e@x.com" "f9"
        = (dbSave [reqAllTok] u, Except.ok u)
      ∧ u.requestToken = reqAllTok.requestToken
      ∧ u.hrToken = reqAllTok.hrToken
      ∧ u.finalHRToken = reqAllTok.finalHRToken
      ∧ u.mdToken = "f9")
    ∧ (∃ u, handleMDAction [reqAllTok] "tk" "Approved" "f9"
        = (dbSave [reqAllTok] u, Except.ok u)
      ∧ u.requestToken = reqAllTok.requestToken
      ∧ u.hrToken = reqAllTok.hrToken
      ∧ u.mdToken = reqAllTok.mdToken
      ∧ u.finalHRToken = "f9") :=
  ⟨(token_update_discipline [reqAllTok] "tk" "Approved" "e@x.com" "f9").1 reqAllTok rfl,
    (token_update_discipline [reqAllTok] "tk" "Approved" "e@x.com" "f9").2.1 reqAllTok rfl,
    (token_update_discipline [reqAllTok] "tk" "Approved" "e@x.com" "f9").2.2 reqAllTok rfl⟩

/-- Claim C9 counterexample: the agreement between approval booleans and
decision fields fails in a state reachable through the public operations.
Submitting a body whose manager_decision field reads "Approved" yields a
store (reachable by a single Submit) whose row has managerDecision
"Approved" but managerApproved false. -/
theorem flags_agreement_cex :
    Reach (submitLeaveRequest [] badBody "t1" 0).1
      ∧ storeAgrees (submitLeaveRequest [] badBody "t1" 0).1 = false
      ∧ (submitLeaveRequest [] badBody "t1" 0).2.managerDecision = StatusApproved
      ∧ (submitLeaveRequest [] badBody "t1" 0).2.managerApproved = false :=
  ⟨Reach.submit [] badBody "t1" 0 Reach.empty, by decide, rfl, rfl⟩

/-- Claim C9 (amended): in every store reachable through the public
operations from the empty store — provided submission bodies do not carry
a decision field reading exactly "Approved" (in particular, ordinary
submissions with the decision fields unset) — each approval boolean agrees
with its decision field: the flag is true iff the decision is "Approved".
(Submission bodies carrying a decision field of "Approved" break the
agreement, since Submit stores the decision verbatim but forces the flag
to false.) -/
theorem flags_agree_of_reachOK {db : Store} (h : ReachOK db) :
    storeAgrees db = true := by
  induction h with
  | empty => rfl
  | submit db body f n hdb hm hh hmd ih =>
    have hall := List.all_eq_true.mp ih
    refine List.all_eq_true.mpr ?_
    intro x hx
    unfold submitLeaveRequest dbCreate at hx
    rcases List.mem_append.mp hx with h1 | h2
    · exact hall x h1
    · have hx2 := List.mem_singleton.mp h2
      subst hx2
      simp only [agreeFlags]
      simp [beq_eq_false_iff_ne.mpr hm, beq_eq_false_iff_ne.mpr hh,
        beq_eq_false_iff_ne.mpr hmd]
  | mgrAct db tok s e f hdb ih =>
    cases hfind : findByRequestToken db tok with
    | none =>
      simp only [handleLineManagerAction, hfind]
      exact ih
    | some r =>
      have hall := List.all_eq_true.mp ih
      refine List.all_eq_true.mpr ?_
      intro x hx
      simp only [handleLineManagerAction, hfind] at hx
      rcases mem_of_mem_dbSave hx with h1 | h2
      · exact hall x h1
      · subst h2
        have hr := hall r (mem_of_findByRequestToken hfind)
        simp only [agreeFlags, Bool.and_eq_true, beq_iff_eq] at hr ⊢
        exact ⟨⟨rfl, hr.1.2⟩, hr.2⟩
  | hrAct db tok s e f hdb ih =>
    cases hfind : findByHRToken db tok with
    | none =>
      simp only [handleHRManagerAction, hfind]
      exact ih
    | some r =>
      have hall := List.all_eq_true.mp ih
      refine List.all_eq_true.mpr ?_
      intro x hx
      simp only [handleHRManagerAction, hfind] at hx
      rcases mem_of_mem_dbSave hx with h1 | h2
      · exact hall x h1
      · subst h2
        have hr := hall r (mem_of_findByHRToken hfind)
        simp only [agreeFlags, Bool.and_eq_true, beq_iff_eq] at hr ⊢
        exact ⟨⟨hr.1.1, rfl⟩, hr.2⟩
  | mdAct db tok s f hdb ih =>
    cases hfind : findByMDToken db tok with
    | none =>
      simp only [handleMDAction, hfind]
      exact ih
    | some r =>
      have hall := List.all_eq_true.mp ih
      refine List.all_eq_true.mpr ?_
      intro x hx
      simp only [handleMDAction, hfind] at hx
      rcases mem_of_mem_dbSave hx with h1 | h2
      · exact hall x h1
      · subst h2
        have hr := hall r (mem_of_findByMDToken hfind)
        simp only [agreeFlags, Bool.and_eq_true, beq_iff_eq] at hr ⊢
        exact ⟨hr.1, rfl⟩

/-- Concrete instance of the amended C9 theorem: a full chain (submit,
manager approve, HR reject, MD approve) preserves the agreement. -/
theorem flags_agree_of_reachOK_witness :
    storeAgrees (handleMDAction
      (handleHRManagerAction
        (handleLineManagerAction
          (submitLeaveRequest [] emptyReq "t1" 0).1
          "t1" StatusApproved "h@x.com" "t2").1
        "t2" StatusRejected "d@x.com" "t3").1
      "t3" StatusApproved "t4").1 = true :=
  flags_agree_of_reachOK
    (ReachOK.mdAct _ "t3" StatusApproved "t4"
      (ReachOK.hrAct _ "t2" StatusRejected "d@x.com" "t3"
        (ReachOK.mgrAct _ "t1" StatusApproved "h@x.com" "t2"
          (ReachOK.submit [] emptyReq "t1" 0 ReachOK.empty
            (by decide) (by decide) (by decide)))))

end Petrodata
